import Mathlib

/-
Verification of the Netflix-Recommender repository.

The repository has two algorithmic components:

* `recommender_core.py`: `load_data` builds a combined text column from the
  catalog, `build_model` turns it into TF-IDF vectors and a cosine-similarity
  matrix (via sklearn), and `recommend` ranks rows of that matrix.
* `streamlit_app.py`: `get_tmdb_poster` scores a list of external search
  candidates by title similarity, year proximity and popularity, and returns
  the best poster URL or `None`.

Modelling conventions:
* Python floats are modelled exactly: the resolver scores are rational
  (difflib ratios and the weight constants are rational), so the resolver is
  embedded over `ℚ`; the TF-IDF/cosine pipeline involves logarithms and
  square roots and is embedded over `ℝ`.
* Library calls (pandas, sklearn, difflib) are embedded following their
  documented semantics: pandas string addition propagates missing values,
  sklearn `TfidfVectorizer(stop_words=english)` lowercases, tokenizes
  maximal runs of word characters keeping tokens of length at least two,
  drops stop words, weights by smoothed idf, and `cosine_similarity`
  normalizes rows, leaving all-zero rows at zero; `difflib.SequenceMatcher`
  totals recursively found longest matching blocks.  The sklearn English
  stop-word list is reproduced below; `difflib` autojunk (inert for strings
  shorter than 200 characters) and unicode-specific character classes are
  not modelled, and none of the statements below depend on them.
* HTTP fetching, caching and the Streamlit UI are external collaborators;
  the resolver is modelled from the point where the candidate list
  (`results`) is in hand.  Code that can raise is embedded in `Except`.
-/

/-! ## Python string primitives

Implemented structurally over the character list of a string (Lean's own
`String.trim`, `String.toLower` and `String.split` walk byte positions by
well-founded recursion, which blocks definitional evaluation; the list
versions compute the same functions on the ASCII data handled here). -/

/-- Whitespace stripped by Python `str.strip()` (ASCII fragment). -/
def isPyWS (c : Char) : Bool :=
  c.isWhitespace || c = '\x0b' || c = '\x0c'

/-- Model of Python `s.strip()`. -/
def pyStrip (s : String) : String :=
  ⟨((s.data.dropWhile isPyWS).reverse.dropWhile isPyWS).reverse⟩

/-- Model of Python `s.lower()` (ASCII fragment). -/
def pyLower (s : String) : String :=
  ⟨s.data.map Char.toLower⟩

/-- Model of the Python slice `s[:n]`. -/
def pyTake (s : String) (n : ℕ) : String :=
  ⟨s.data.take n⟩

/-! ## Python-value helpers shared by the resolver embedding -/

/-- Digits to a natural number, as Python int parsing does for a digit run. -/
def digitsToNat (l : List Char) : ℕ :=
  l.foldl (fun n c => n * 10 + (c.toNat - 48)) 0

/-- Model of Python `int(s)`: optional surrounding whitespace, optional sign,
then a nonempty digit run (underscore grouping and non-ASCII digits are not
modelled; no statement below depends on them). -/
def pyInt (s : String) : Option Int :=
  match (pyStrip s).data with
  | [] => none
  | '+' :: ds =>
    if ds ≠ [] ∧ ds.all Char.isDigit then some (digitsToNat ds : ℤ) else none
  | '-' :: ds =>
    if ds ≠ [] ∧ ds.all Char.isDigit then some (-(digitsToNat ds : ℤ)) else none
  | ds =>
    if ds.all Char.isDigit then some (digitsToNat ds : ℤ) else none

/-- Unsigned decimal core of Python `float(s)`: digits with an optional
decimal point. -/
def floatCore (l : List Char) : Option ℚ :=
  match l.span (fun c => c != '.') with
  | (ip, []) =>
    if ip ≠ [] ∧ ip.all Char.isDigit then some (digitsToNat ip : ℚ) else none
  | (ip, _ :: fp) =>
    if (ip ≠ [] ∨ fp ≠ []) ∧ ip.all Char.isDigit ∧ fp.all Char.isDigit then
      some ((digitsToNat ip : ℚ) + (digitsToNat fp : ℚ) / 10 ^ fp.length)
    else none

/-- Model of Python `float(s)` on strings: optional whitespace and sign, then
a decimal literal (exponent, `inf` and `nan` forms are not modelled; no
statement below depends on them — a clearly non-numeric string fails either
way). -/
def parseFloat (s : String) : Option ℚ :=
  match (pyStrip s).data with
  | '+' :: ds => floatCore ds
  | '-' :: ds => (floatCore ds).map Neg.neg
  | ds => floatCore ds

/-- A JSON scalar as it reaches `float(...)`: a number, or a (possibly
malformed) string. -/
inductive PopVal where
  | num (q : ℚ)
  | str (s : String)
deriving DecidableEq

/-- Python truthiness of the modelled JSON scalars: `0` and the empty string
are falsy. -/
def truthy : PopVal → Bool
  | .num q => q != 0
  | .str s => s != ""

/-- Model of Python `float(v)` applied to a JSON scalar: numbers pass
through; strings must parse as a decimal literal, otherwise `ValueError`. -/
def pyFloat : PopVal → Except Unit ℚ
  | .num q => .ok q
  | .str s =>
    match parseFloat s with
    | some q => .ok q
    | none => .error ()

/-- Model of Python `a or b` for two optional string fields: a present,
nonempty string wins, otherwise fall through. -/
def strOr (a b : Option String) : Option String :=
  match a with
  | some s => if s = "" then b else some s
  | none => b

/-! ## The external candidate record (one TMDb search result) -/

/-- One search result as consumed by `get_tmdb_poster`.  Fields are the JSON
keys the code reads with `r.get(...)`; `none` covers both an absent key and
JSON `null`. -/
structure Candidate where
  title : Option String
  name : Option String
  release_date : Option String
  first_air_date : Option String
  popularity : Option PopVal
  poster_path : Option String
deriving DecidableEq

/-- Model of `r.get("popularity") or 0`. -/
def popRaw (r : Candidate) : PopVal :=
  match r.popularity with
  | none => .num 0
  | some v => if truthy v then v else .num 0

/-- Model of `candidate_title = (r.get("title") or r.get("name") or "").strip()`. -/
def candTitle (r : Candidate) : String :=
  pyStrip ((strOr r.title r.name).getD "")

/-- Model of `rd = r.get("release_date") or r.get("first_air_date") or ""`. -/
def candDate (r : Candidate) : String :=
  (strOr r.release_date r.first_air_date).getD ""

/-! ## difflib.SequenceMatcher ratio -/

/-- Length of the longest common prefix of two character lists. -/
def lcpLen : List Char → List Char → ℕ
  | a :: as, b :: bs => if a = b then lcpLen as bs + 1 else 0
  | _, _ => 0

/-- Model of `SequenceMatcher.find_longest_match` (no junk): the longest
block `(i, j, k)` with `a.drop i` and `b.drop j` agreeing on `k` characters,
earliest in `a` then earliest in `b` on ties, `(0, 0, 0)` when there is no
match. -/
def bestMatch (a b : List Char) : ℕ × ℕ × ℕ :=
  (List.range a.length).foldl
    (fun acc i =>
      (List.range b.length).foldl
        (fun acc2 j =>
          let k := lcpLen (a.drop i) (b.drop j)
          if acc2.2.2 < k then (i, j, k) else acc2)
        acc)
    (0, 0, 0)

/-- Total matched characters of `SequenceMatcher.get_matching_blocks`:
recursively take the longest match and recurse on both sides.  The fuel
argument only bounds the recursion; every call below supplies
`a.length + b.length`, which the divide-and-conquer never exhausts. -/
def matchTotal : ℕ → List Char → List Char → ℕ
  | 0, _, _ => 0
  | fuel + 1, a, b =>
    let m := bestMatch a b
    if m.2.2 = 0 then 0
    else
      matchTotal fuel (a.take m.1) (b.take m.2.1) + m.2.2 +
        matchTotal fuel (a.drop (m.1 + m.2.2)) (b.drop (m.2.1 + m.2.2))

/-- Model of `difflib.SequenceMatcher(None, s, t).ratio()`:
`2 * M / T` with `M` the total matched characters and `T` the total length
(`1` when both strings are empty). -/
def seqMatchScore (s t : String) : ℚ :=
  let a := s.data
  let b := t.data
  if a.length + b.length = 0 then 1
  else 2 * (matchTotal (a.length + b.length) a b : ℚ) / ((a.length : ℚ) + (b.length : ℚ))

/-! ## The resolver scoring (body of the loop in get_tmdb_poster) -/

/-- Python truthiness of the optional query year: `None` and `0` are falsy.
This is the test the code runs as `if year:`. -/
def yearTruthy : Option Int → Bool
  | none => false
  | some y => y != 0

/-- Composite score of one candidate, exactly as computed inside the loop of
`get_tmdb_poster`: title similarity on lowercased strings, the year-distance
table guarded by `if year and rd:` with `int(rd[:4])` failures caught to
`0.0`, popularity normalized by the maximum when that maximum is positive,
and the two weightings selected by `if year:`. -/
def candScore (title : String) (year : Option Int) (max_pop : ℚ) (r : Candidate) (pop : ℚ) : ℚ :=
  let tsim := seqMatchScore (pyLower title) (pyLower (candTitle r))
  let rd := candDate r
  let ys : ℚ :=
    if yearTruthy year then
      if rd ≠ "" then
        match pyInt (pyTake rd 4) with
        | some ry =>
          let d := (ry - year.getD 0).natAbs
          if d = 0 then 1 else if d ≤ 1 then 7 / 10 else if d ≤ 3 then 2 / 5 else 0
        | none => 0
      else 0
    else 0
  let pn : ℚ := if 0 < max_pop then pop / max_pop else 0
  if yearTruthy year then 3 / 5 * tsim + 3 / 10 * ys + 1 / 10 * pn
  else 17 / 20 * tsim + 3 / 20 * pn

/-- Model of `pops = [float(r.get("popularity") or 0) for r in results]`:
the first `ValueError` propagates. -/
def popsOf : List Candidate → Except Unit (List ℚ)
  | [] => .ok []
  | r :: rs =>
    match pyFloat (popRaw r), popsOf rs with
    | .ok p, .ok ps => .ok (p :: ps)
    | .error e, _ => .error e
    | .ok _, .error e => .error e

/-- Model of Python `max(l)` for the nonempty case, with the code's
`if pops else 1.0` default for the empty case. -/
def pyMax : List ℚ → ℚ
  | [] => 1
  | p :: ps => ps.foldl max p

/-- One step of the selection loop: `if score > best_score` keeps the first
candidate attaining a new strict maximum. -/
def bestStep (title : String) (year : Option Int) (max_pop : ℚ)
    (acc : Option Candidate × ℚ) (rp : Candidate × ℚ) : Option Candidate × ℚ :=
  let s := candScore title year max_pop rp.1 rp.2
  if acc.2 < s then (some rp.1, s) else acc

/-- Tail of `get_tmdb_poster` after acceptance: return the poster path
prefixed with the image host, or `None` when the path is absent or empty. -/
def acceptPoster (b : Candidate) : Option String :=
  match b.poster_path with
  | some p => if p = "" then none else some ("https://image.tmdb.org/t/p/w500" ++ p)
  | none => none

/-- Embedding of `get_tmdb_poster` from the point where the candidate list is
available (the HTTP fetch and its status/empty-body early returns are the
excluded transport; `results` is its decoded output).  The initial
`title.strip()` emptiness guard is part of the function and is kept.
`media_type` only selects the search endpoint and the HTTP `year` parameter,
so it does not appear. -/
def get_tmdb_poster (title : String) (year : Option Int) (results : List Candidate) :
    Except Unit (Option String) :=
  let t := pyStrip title
  if t = "" then .ok none
  else if results.isEmpty then .ok none
  else
    match popsOf results with
    | .error e => .error e
    | .ok pops =>
      let max_pop := pyMax pops
      let bs := (results.zip pops).foldl (bestStep t year max_pop) (none, -1)
      match bs.1 with
      | none => .ok none
      | some b =>
        let threshold : ℚ := if yearTruthy year then 3 / 10 else 3 / 5
        if bs.2 < threshold then .ok none
        else .ok (acceptPoster b)

/-! ## The catalog and load_data (recommender_core.py) -/

/-- One catalog row with the columns `load_data` and `recommend` read.
`title` is required by the data model; `director`, `cast` and `listed_in`
model possibly-missing (NaN) cells.  The remaining columns (`type`,
`release_year`, `description`) feed only the excluded dashboard filters. -/
structure Row where
  title : String
  director : Option String
  cast : Option String
  listed_in : Option String
deriving DecidableEq

/-- The combined text column built by `load_data`: pandas fills missing
`director`/`cast` with the empty string, but a missing `listed_in` (genres)
cell propagates through string concatenation as NaN, i.e. `none`. -/
def combinedOf (r : Row) : Option String :=
  match r.listed_in with
  | none => none
  | some g =>
    some (r.title ++ " " ++ r.director.getD "" ++ " " ++ r.cast.getD "" ++ " " ++ g)

/-- Embedding of `load_data` from the already-ingested rows (CSV reading is
an external collaborator): the `combined` column the rest of the pipeline
consumes. -/
def load_data (rows : List Row) : List (Option String) :=
  rows.map combinedOf

/-! ## TfidfVectorizer and cosine_similarity (build_model) -/

/-- The sklearn ENGLISH_STOP_WORDS list used by
`TfidfVectorizer(stop_words=english)`. -/
def englishStopWords : List String :=
  ["a", "about", "above", "across", "after", "afterwards", "again", "against",
   "all", "almost", "alone", "along", "already", "also", "although", "always",
   "am", "among", "amongst", "amoungst", "amount", "an", "and", "another",
   "any", "anyhow", "anyone", "anything", "anyway", "anywhere", "are",
   "around", "as", "at", "back", "be", "became", "because", "become",
   "becomes", "becoming", "been", "before", "beforehand", "behind", "being",
   "below", "beside", "besides", "between", "beyond", "bill", "both",
   "bottom", "but", "by", "call", "can", "cannot", "cant", "co", "con",
   "could", "couldnt", "cry", "de", "describe", "detail", "do", "done",
   "down", "due", "during", "each", "eg", "eight", "either", "eleven",
   "else", "elsewhere", "empty", "enough", "etc", "even", "ever", "every",
   "everyone", "everything", "everywhere", "except", "few", "fifteen",
   "fifty", "fill", "find", "fire", "first", "five", "for", "former",
   "formerly", "forty", "found", "four", "from", "front", "full", "further",
   "get", "give", "go", "had", "has", "hasnt", "have", "he", "hence", "her",
   "here", "hereafter", "hereby", "herein", "hereupon", "hers", "herself",
   "him", "himself", "his", "how", "however", "hundred", "i", "ie", "if",
   "in", "inc", "indeed", "interest", "into", "is", "it", "its", "itself",
   "keep", "last", "latter", "latterly", "least", "less", "ltd", "made",
   "many", "may", "me", "meanwhile", "might", "mill", "mine", "more",
   "moreover", "most", "mostly", "move", "much", "must", "my", "myself",
   "name", "namely", "neither", "never", "nevertheless", "next", "nine",
   "no", "nobody", "none", "noone", "nor", "not", "nothing", "now",
   "nowhere", "of", "off", "often", "on", "once", "one", "only", "onto",
   "or", "other", "others", "otherwise", "our", "ours", "ourselves", "out",
   "over", "own", "part", "per", "perhaps", "please", "put", "rather", "re",
   "same", "see", "seem", "seemed", "seeming", "seems", "serious", "several",
   "she", "should", "show", "side", "since", "sincere", "six", "sixty",
   "so", "some", "somehow", "someone", "something", "sometime", "sometimes",
   "somewhere", "still", "such", "system", "take", "ten", "than", "that",
   "the", "their", "them", "themselves", "then", "thence", "there",
   "thereafter", "thereby", "therefore", "therein", "thereupon", "these",
   "they", "thick", "thin", "third", "this", "those", "though", "three",
   "through", "throughout", "thru", "thus", "to", "together", "too", "top",
   "toward", "towards", "twelve", "twenty", "two", "un", "under", "until",
   "up", "upon", "us", "very", "via", "was", "we", "well", "were", "what",
   "whatever", "when", "whence", "whenever", "where", "whereafter",
   "whereas", "whereby", "wherein", "whereupon", "wherever", "whether",
   "which", "while", "whither", "who", "whoever", "whole", "whom", "whose",
   "why", "will", "with", "within", "without", "would", "yet", "you",
   "your", "yours", "yourself", "yourselves"]

/-- A word character for the default sklearn token pattern (ASCII fragment
of the regex class). -/
def wordChar (c : Char) : Bool :=
  c.isAlphanum || c = '_'

/-- Maximal runs of characters satisfying `p` (the accumulator holds the
current run reversed). -/
def runsAux (p : Char → Bool) : List Char → List Char → List (List Char)
  | cur, [] => if cur = [] then [] else [cur.reverse]
  | cur, c :: cs =>
    if p c then runsAux p (c :: cur) cs
    else if cur = [] then runsAux p [] cs
    else cur.reverse :: runsAux p [] cs

/-- The default sklearn analyzer: lowercase, then take maximal runs of word
characters of length at least two. -/
def tokenize (s : String) : List String :=
  ((runsAux wordChar [] (s.data.map Char.toLower)).map String.mk).filter
    (fun t => 2 ≤ t.length)

/-- Tokens of one document after stop-word removal. -/
def tokensOf (doc : String) : List String :=
  (tokenize doc).filter (fun t => !englishStopWords.contains t)

/-- Token lists of every document of the combined column. -/
def docsTokens (docs : List (Option String)) : List (List String) :=
  docs.map (fun d => tokensOf (d.getD ""))

/-- The fitted vocabulary: every token that survives in some document. -/
def vocabOf (docs : List (Option String)) : List String :=
  (docsTokens docs).flatten.dedup

/-- Term frequency of a term in one document. -/
def tfOf (t : String) (doc : List String) : ℕ :=
  doc.count t

/-- Document frequency of a term over the corpus. -/
def dfreq (t : String) (toks : List (List String)) : ℕ :=
  (toks.filter (fun d => d.contains t)).length

/-- Smoothed idf of sklearn: `ln((1 + n) / (1 + df)) + 1`. -/
noncomputable def idfOf (n dft : ℕ) : ℝ :=
  Real.log ((1 + n) / (1 + dft)) + 1

/-- The TF-IDF vector of document `i`, indexed by vocabulary position.  The
vectorizer also l2-normalizes each row, but cosine similarity is invariant
under that positive scaling (and zero rows stay zero), so the model keeps
the raw weights and normalizes once in `cosSim`. -/
noncomputable def docVec (docs : List (Option String)) (i : ℕ) : ℕ → ℝ :=
  fun k =>
    let toks := docsTokens docs
    let t := (vocabOf docs).getD k ""
    (tfOf t (toks.getD i []) : ℝ) * idfOf toks.length (dfreq t toks)

/-- Dot product over the first `N` coordinates. -/
noncomputable def dotV (N : ℕ) (u v : ℕ → ℝ) : ℝ :=
  ∑ k in Finset.range N, u k * v k

/-- The norm divisor of sklearn `normalize`: zero norms are replaced by one,
leaving all-zero rows at zero. -/
noncomputable def nz (x : ℝ) : ℝ :=
  if x = 0 then 1 else x

/-- Cosine similarity with the sklearn zero-row convention. -/
noncomputable def cosSim (N : ℕ) (u v : ℕ → ℝ) : ℝ :=
  dotV N u v / (nz (Real.sqrt (dotV N u u)) * nz (Real.sqrt (dotV N v v)))

/-- The full pairwise similarity matrix of `cosine_similarity(tfidf_matrix,
tfidf_matrix)`, as a total function on indices. -/
noncomputable def simOf (docs : List (Option String)) : ℕ → ℕ → ℝ :=
  fun i j => cosSim (vocabOf docs).length (docVec docs i) (docVec docs j)

/-- The failures `fit_transform` can raise on this pipeline: a non-string
(NaN) entry of the combined column, or an empty fitted vocabulary (which is
what an empty catalog produces). -/
inductive BuildError where
  | invalidDocument
  | emptyVocabulary
deriving DecidableEq

/-- Embedding of `build_model`: vectorize the combined column and return the
cosine-similarity matrix, or the corresponding `ValueError`.  NaN documents
are reported while the corpus is scanned, before the vocabulary emptiness
check, matching the sklearn order. -/
noncomputable def build_model (docs : List (Option String)) :
    Except BuildError (ℕ → ℕ → ℝ) :=
  if docs.any (fun d => d.isNone) then .error .invalidDocument
  else if (vocabOf docs).isEmpty then .error .emptyVocabulary
  else .ok (simOf docs)

/-! ## recommend (recommender_core.py) -/

/-- Stable descending insertion by score: an incoming element passes every
earlier element of strictly greater score and stops in front of the first
element of less-or-equal score, so elements with equal scores keep their
input order.  Python `sorted(..., key=..., reverse=True)` is exactly such a
stable descending sort. -/
noncomputable def insertDesc (x : ℕ × ℝ) : List (ℕ × ℝ) → List (ℕ × ℝ)
  | [] => [x]
  | y :: ys => if x.2 < y.2 then y :: insertDesc x ys else x :: y :: ys

/-- Stable descending sort by score (model of
`sorted(sim_scores, key=lambda x: x[1], reverse=True)`). -/
noncomputable def sortDesc : List (ℕ × ℝ) → List (ℕ × ℝ)
  | [] => []
  | x :: l => insertDesc x (sortDesc l)

/-- The enumerated similarity row `list(enumerate(cosine_sim[idx]))` for a
catalog of `n` rows. -/
noncomputable def enumRow (n idx : ℕ) (sim : ℕ → ℕ → ℝ) : List (ℕ × ℝ) :=
  (List.range n).map (fun j => (j, sim idx j))

/-- The recommended row indices: sort the enumerated row by descending
score, drop the first entry, keep the next five (`sim_scores[1:6]`). -/
noncomputable def topIndices (n idx : ℕ) (sim : ℕ → ℕ → ℝ) : List ℕ :=
  (((sortDesc (enumRow n idx sim)).drop 1).take 5).map Prod.fst

/-- Embedding of `recommend`: resolve the title case-insensitively to the
first matching row index, or return the sentinel list; then map the
recommended indices back to titles. -/
noncomputable def recommend (title : String) (df : List Row) (sim : ℕ → ℕ → ℝ) :
    List String :=
  match (df.map Row.title).findIdx? (fun t => pyLower t == pyLower title) with
  | none => ["❌ Title not found. Try another."]
  | some idx =>
    (topIndices df.length idx sim).map (fun j => (df.map Row.title).getD j "")

/-! ## Specification-side definitions

These follow the wording of the specification (not the code); the claim
theorems compare the code embedding against them. -/

/-- A candidate with its date fields removed, used to state that an
unparseable release date contributes exactly what no date contributes. -/
def stripDates (r : Candidate) : Candidate :=
  ⟨r.title, r.name, none, none, r.popularity, r.poster_path⟩

/-- The year the specification attributes to a candidate: none when the
release-date string is empty or its four-character prefix does not parse. -/
def specCandYear (r : Candidate) : Option Int :=
  if candDate r = "" then none else pyInt (pyTake (candDate r) 4)

/-- The year score table of the specification: 1.0 on an exact match, 0.7
off by one, 0.4 off by at most three, 0.0 otherwise, and 0.0 whenever the
candidate lacks year data. -/
def specYearScore (y : Int) (r : Candidate) : ℚ :=
  match specCandYear r with
  | none => 0
  | some ry =>
    if (ry - y).natAbs = 0 then 1
    else if (ry - y).natAbs ≤ 1 then 7 / 10
    else if (ry - y).natAbs ≤ 3 then 2 / 5
    else 0

/-- The popularity normalization of the specification: candidate popularity
divided by the maximum popularity of the call, 0 when that maximum is 0. -/
def specPopNorm (maxPop pop : ℚ) : ℚ :=
  if maxPop = 0 then 0 else pop / maxPop

/-- The composite scores of all candidates of one call, in input order. -/
def loopScores (title : String) (year : Option Int) (results : List Candidate)
    (ps : List ℚ) : List ℚ :=
  (results.zip ps).map (fun rp => candScore title year (pyMax ps) rp.1 rp.2)

/-- The winning (maximum) composite score of one call. -/
def winningScore (title : String) (year : Option Int) (results : List Candidate)
    (ps : List ℚ) : ℚ :=
  pyMax (loopScores title year results ps)

/-- The candidate the specification selects: the first candidate in input
order whose composite score attains the maximum. -/
def firstBest (title : String) (year : Option Int) (results : List Candidate)
    (ps : List ℚ) : Option (Candidate × ℚ) :=
  (results.zip ps).find?
    (fun rp => candScore title year (pyMax ps) rp.1 rp.2 = winningScore title year results ps)

/-! ## Concrete inputs used by witnesses and counterexamples -/

/-- A candidate whose popularity field holds a non-numeric string. -/
def cBadPop : Candidate :=
  ⟨some "aa", none, none, none, some (.str "abc"), some "/x.jpg"⟩

/-- A well-formed candidate whose display name equals the query below. -/
def cPlain : Candidate :=
  ⟨some "aa", none, none, none, none, some "/x.jpg"⟩

/-- A candidate with an unparseable release date and a numeric popularity. -/
def cOddDate : Candidate :=
  ⟨some "aa", none, some "20xx-bad", none, some (.num 80), some "/y.jpg"⟩

/-- A matching candidate with an exact year. -/
def cYear : Candidate :=
  ⟨some "ab", none, some "1999-01-01", none, some (.num 2), some "/z.jpg"⟩

/-- Two-row catalog whose second row has no tokens of length at least two:
its TF-IDF vector is zero. -/
def catalogZ : List Row :=
  [⟨"ab", none, none, some "cd"⟩, ⟨"z", none, none, some "z"⟩]

/-- Two-row catalog with disjoint, well-formed token sets. -/
def catalogTwo : List Row :=
  [⟨"ab", none, none, some "cd"⟩, ⟨"ef", none, none, some "gh"⟩]

/-! ## Helper lemmas about the resolver -/

theorem candScore_year_zero (t : String) (mp : ℚ) (r : Candidate) (p : ℚ) :
    candScore t (some 0) mp r p = candScore t none mp r p := by
  simp [candScore, yearTruthy]

theorem popsOf_ok_of_forall (rs : List Candidate)
    (h : ∀ r ∈ rs, ∃ q, pyFloat (popRaw r) = .ok q) :
    ∃ ps, popsOf rs = .ok ps := by
  induction rs with
  | nil => exact ⟨[], rfl⟩
  | cons r rs ih =>
    obtain ⟨q, hq⟩ := h r (List.mem_cons_self r rs)
    obtain ⟨ps, hps⟩ := ih (fun x hx => h x (List.mem_cons_of_mem r hx))
    exact ⟨q :: ps, by simp [popsOf, hq, hps]⟩

theorem popsOf_length (rs : List Candidate) (ps : List ℚ) (h : popsOf rs = .ok ps) :
    ps.length = rs.length := by
  induction rs generalizing ps with
  | nil =>
    simp only [popsOf] at h
    cases h
    rfl
  | cons r rs ih =>
    simp only [popsOf] at h
    cases h1 : pyFloat (popRaw r) with
    | error e => rw [h1] at h; cases h
    | ok q =>
      rw [h1] at h
      cases h2 : popsOf rs with
      | error e => rw [h2] at h; cases h
      | ok qs =>
        rw [h2] at h
        cases h
        simp [ih qs h2]

theorem le_foldl_max (l : List ℚ) : ∀ a : ℚ, a ≤ l.foldl max a := by
  induction l with
  | nil => intro a; exact le_refl a
  | cons b t ih =>
    intro a
    exact le_trans (le_max_left a b) (ih (max a b))

theorem le_foldl_max_of_mem (l : List ℚ) : ∀ (a x : ℚ), x ∈ l → x ≤ l.foldl max a := by
  induction l with
  | nil => intro a x hx; cases hx
  | cons b t ih =>
    intro a x hx
    rcases List.mem_cons.mp hx with h | h
    · subst h
      exact le_trans (le_max_right a x) (le_foldl_max t (max a x))
    · exact ih (max a b) x h

theorem mem_le_pyMax (l : List ℚ) (x : ℚ) (h : x ∈ l) : x ≤ pyMax l := by
  cases l with
  | nil => cases h
  | cons a t =>
    rcases List.mem_cons.mp h with h1 | h1
    · subst h1; exact le_foldl_max t x
    · exact le_foldl_max_of_mem t a x h1

theorem foldl_max_mem (t : List ℚ) : ∀ a : ℚ, t.foldl max a ∈ a :: t := by
  induction t with
  | nil => intro a; exact List.mem_cons_self a []
  | cons b t ih =>
    intro a
    have h := ih (max a b)
    rw [List.foldl_cons]
    rcases List.mem_cons.mp h with h1 | h1
    · rw [h1]
      rcases max_choice a b with h2 | h2 <;> rw [h2]
      · exact List.mem_cons_self _ _
      · exact List.mem_cons_of_mem _ (List.mem_cons_self _ _)
    · exact List.mem_cons_of_mem _ (List.mem_cons_of_mem _ h1)

theorem pyMax_mem (l : List ℚ) (h : l ≠ []) : pyMax l ∈ l := by
  cases l with
  | nil => exact absurd rfl h
  | cons a t => exact foldl_max_mem t a

theorem pyMax_nonneg (ps : List ℚ) (h : ∀ p ∈ ps, 0 ≤ p) : 0 ≤ pyMax ps := by
  cases ps with
  | nil => norm_num [pyMax]
  | cons a t =>
    exact le_trans (h a (List.mem_cons_self a t)) (le_foldl_max t a)

theorem foldl_bestStep_const (t : String) (y : Option Int) (mp : ℚ)
    (l : List (Candidate × ℚ)) (b0 : Option Candidate) (s0 : ℚ)
    (h : ∀ x ∈ l, candScore t y mp x.1 x.2 ≤ s0) :
    l.foldl (bestStep t y mp) (b0, s0) = (b0, s0) := by
  induction l with
  | nil => rfl
  | cons x xs ih =>
    have hx : ¬ s0 < candScore t y mp x.1 x.2 :=
      not_lt.mpr (h x (List.mem_cons_self x xs))
    have hstep : bestStep t y mp (b0, s0) x = (b0, s0) := by
      simp [bestStep, hx]
    rw [List.foldl_cons, hstep]
    exact ih (fun z hz => h z (List.mem_cons_of_mem x hz))

theorem foldl_max_shift (l : List ℚ) : ∀ a b : ℚ, l.foldl max (max a b) = max a (l.foldl max b) := by
  induction l with
  | nil => intro a b; rfl
  | cons c t ih =>
    intro a b
    rw [List.foldl_cons, List.foldl_cons, max_assoc, ih a (max b c)]

theorem pyMax_cons (a : ℚ) (l : List ℚ) (h : l ≠ []) :
    pyMax (a :: l) = max a (pyMax l) := by
  cases l with
  | nil => exact absurd rfl h
  | cons b t =>
    show (b :: t).foldl max a = max a (t.foldl max b)
    rw [List.foldl_cons, foldl_max_shift]


theorem foldl_bestStep_argmax (t : String) (y : Option Int) (mp : ℚ) :
    ∀ (l : List (Candidate × ℚ)) (b0 : Option Candidate) (s0 : ℚ),
      l ≠ [] → s0 < pyMax (l.map (fun x => candScore t y mp x.1 x.2)) →
      ∃ w, l.find? (fun x => candScore t y mp x.1 x.2 = pyMax (l.map (fun x => candScore t y mp x.1 x.2))) = some w ∧
        l.foldl (bestStep t y mp) (b0, s0) =
          (some w.1, pyMax (l.map (fun x => candScore t y mp x.1 x.2))) := by
  intro l
  induction l with
  | nil => intro b0 s0 h; exact absurd rfl h
  | cons x xs ih =>
    intro b0 s0 _ hlt
    by_cases hxs : xs = []
    · subst hxs
      have hM : pyMax ([x].map (fun z => candScore t y mp z.1 z.2)) = candScore t y mp x.1 x.2 := rfl
      rw [hM] at hlt
      refine ⟨x, ?_, ?_⟩
      · refine List.find?_cons_of_pos _ ?_
        simp only [decide_eq_true_eq]
        exact hM.symm
      · rw [List.foldl_cons]
        have hstep : bestStep t y mp (b0, s0) x = (some x.1, candScore t y mp x.1 x.2) := by
          simp [bestStep, hlt]
        rw [hstep, hM]
        rfl
    · have hmapne : xs.map (fun z => candScore t y mp z.1 z.2) ≠ [] := by
        simpa using hxs
      have hM : pyMax ((x :: xs).map (fun z => candScore t y mp z.1 z.2)) =
          max (candScore t y mp x.1 x.2) (pyMax (xs.map (fun z => candScore t y mp z.1 z.2))) := by
        rw [List.map_cons, pyMax_cons _ _ hmapne]
      by_cases hx : candScore t y mp x.1 x.2 =
          pyMax ((x :: xs).map (fun z => candScore t y mp z.1 z.2))
      · have hs0 : s0 < candScore t y mp x.1 x.2 := by rw [hx]; exact hlt
        have hstep : bestStep t y mp (b0, s0) x = (some x.1, candScore t y mp x.1 x.2) := by
          simp [bestStep, hs0]
        have hrest : xs.foldl (bestStep t y mp) (some x.1, candScore t y mp x.1 x.2) =
            (some x.1, candScore t y mp x.1 x.2) := by
          apply foldl_bestStep_const
          intro z hz
          have hzle : candScore t y mp z.1 z.2 ≤
              pyMax ((x :: xs).map (fun w => candScore t y mp w.1 w.2)) :=
            mem_le_pyMax _ _ (List.mem_map_of_mem _ (List.mem_cons_of_mem x hz))
          rw [← hx] at hzle
          exact hzle
        refine ⟨x, ?_, ?_⟩
        · refine List.find?_cons_of_pos _ ?_
          simp only [decide_eq_true_eq]
          exact hx
        · rw [List.foldl_cons, hstep, hrest, hx]
      · have hxle : candScore t y mp x.1 x.2 ≤
            pyMax ((x :: xs).map (fun z => candScore t y mp z.1 z.2)) :=
          mem_le_pyMax _ _ (List.mem_map_of_mem _ (List.mem_cons_self x xs))
        have hMtail : pyMax ((x :: xs).map (fun z => candScore t y mp z.1 z.2)) =
            pyMax (xs.map (fun z => candScore t y mp z.1 z.2)) := by
          rcases max_choice (candScore t y mp x.1 x.2)
              (pyMax (xs.map (fun z => candScore t y mp z.1 z.2))) with h1 | h1
          · exact absurd (hM.trans h1).symm hx
          · exact hM.trans h1
        have hxlt : candScore t y mp x.1 x.2 <
            pyMax (xs.map (fun z => candScore t y mp z.1 z.2)) := by
          rw [← hMtail]
          exact lt_of_le_of_ne hxle hx
        have hacc : ∀ (c0 : Option Candidate) (r0 : ℚ),
            r0 < pyMax (xs.map (fun z => candScore t y mp z.1 z.2)) →
            ∃ w, xs.find? (fun z => candScore t y mp z.1 z.2 =
                pyMax (xs.map (fun z => candScore t y mp z.1 z.2))) = some w ∧
              xs.foldl (bestStep t y mp) (c0, r0) =
                (some w.1, pyMax (xs.map (fun z => candScore t y mp z.1 z.2))) :=
          fun c0 r0 hr0 => ih c0 r0 hxs hr0
        have hcons : List.find? (fun z => decide (candScore t y mp z.1 z.2 =
              pyMax (List.map (fun w => candScore t y mp w.1 w.2) xs))) (x :: xs) =
            List.find? (fun z => decide (candScore t y mp z.1 z.2 =
              pyMax (List.map (fun w => candScore t y mp w.1 w.2) xs))) xs := by
          apply List.find?_cons_of_neg
          simp only [decide_eq_true_eq]
          exact fun h => absurd (h.trans hMtail.symm) hx
        rw [List.foldl_cons]
        by_cases hs0x : s0 < candScore t y mp x.1 x.2
        · have hstep : bestStep t y mp (b0, s0) x = (some x.1, candScore t y mp x.1 x.2) := by
            simp [bestStep, hs0x]
          rw [hstep]
          obtain ⟨w, hw1, hw2⟩ := hacc (some x.1) (candScore t y mp x.1 x.2) hxlt
          refine ⟨w, ?_, ?_⟩
          · simp only [hMtail]
            exact hcons.trans hw1
          · rw [hw2, hMtail]
        · have hstep : bestStep t y mp (b0, s0) x = (b0, s0) := by
            simp [bestStep, hs0x]
          rw [hstep]
          have hs0lt : s0 < pyMax (xs.map (fun z => candScore t y mp z.1 z.2)) := by
            rw [← hMtail]; exact hlt
          obtain ⟨w, hw1, hw2⟩ := hacc b0 s0 hs0lt
          refine ⟨w, ?_, ?_⟩
          · simp only [hMtail]
            exact hcons.trans hw1
          · rw [hw2, hMtail]

/-! ## Claim theorems -/

/-- C9: for every candidate list and year, when the query title is empty or
consists only of whitespace (its Python strip is empty), the resolver
returns `None` immediately, independently of the candidates, so no
candidate is scored (the result does not even depend on fields that would
otherwise raise). -/
theorem resolve_blank_title_notFound (title : String) (year : Option Int)
    (results : List Candidate) (h : pyStrip title = "") :
    get_tmdb_poster title year results = .ok none := by
  simp [get_tmdb_poster, h]

/-- Witness for C9 at a concrete whitespace title; the candidate list even
contains a candidate whose popularity would raise if it were scored. -/
theorem resolve_blank_title_notFound_witness :
    pyStrip "  " = "" ∧ get_tmdb_poster "  " (some 1999) [cBadPop] = .ok none :=
  ⟨by decide, resolve_blank_title_notFound "  " (some 1999) [cBadPop] (by decide)⟩

/-- C10: a query year equal to 0 is Python-falsy, so the resolver treats it
exactly as an absent year: the two calls are equal on every title and every
candidate list (hence the no-year weighting 0.85/0.15 and the stricter 0.60
threshold apply). -/
theorem resolve_year_zero_as_absent (title : String) (results : List Candidate) :
    get_tmdb_poster title (some 0) results = get_tmdb_poster title none results := by
  have hstep : bestStep (pyStrip title) (some 0) = bestStep (pyStrip title) none := by
    funext mp acc rp
    simp [bestStep, candScore_year_zero]
  have hy : yearTruthy (some 0) = yearTruthy none := by decide
  simp only [get_tmdb_poster, hstep, hy]

/-- C2 counterexample: the claim says malformed numeric fields always
degrade to a neutral 0.0, but `pops = [float(r.get("popularity") or 0) ...]`
sits outside the try/except, so a candidate whose popularity is the
non-numeric string "abc" makes the resolver raise `ValueError`. -/
theorem resolve_malformed_pop_raises :
    get_tmdb_poster "aa" none [cBadPop] = .error () := rfl

/-- C2 (amended): malformed or unparseable release dates always degrade to
the neutral year contribution (scoring a candidate equals scoring it with
its date fields removed), and the resolver never raises when every
candidate's popularity is absent, null, or numeric — but a non-numeric
popularity string propagates as an error. -/
theorem resolve_dates_degrade_and_total :
    (∀ (t : String) (y : Option Int) (mp p : ℚ) (r : Candidate),
        pyInt (pyTake (candDate r) 4) = none →
        candScore t y mp r p = candScore t y mp (stripDates r) p) ∧
    (∀ (title : String) (year : Option Int) (results : List Candidate),
        (∀ r ∈ results, ∃ q, pyFloat (popRaw r) = .ok q) →
        ∃ o, get_tmdb_poster title year results = .ok o) := by
  constructor
  · intro t y mp p r h
    have htitle : candTitle (stripDates r) = candTitle r := rfl
    have hdate : candDate (stripDates r) = "" := rfl
    simp only [candScore, htitle, hdate]
    by_cases hy : yearTruthy y = true
    · simp only [hy, if_true]
      by_cases hrd : candDate r = ""
      · simp [hrd]
      · simp [hrd, h]
    · simp only [Bool.not_eq_true] at hy
      simp [hy]
  · intro title year results h
    by_cases h1 : pyStrip title = ""
    · exact ⟨none, by simp [get_tmdb_poster, h1]⟩
    · by_cases h2 : results.isEmpty
      · exact ⟨none, by simp [get_tmdb_poster, h1, h2]⟩
      · obtain ⟨ps, hps⟩ := popsOf_ok_of_forall results h
        simp only [get_tmdb_poster, h1, if_false, h2, hps]
        cases hfold : (List.foldl (bestStep (pyStrip title) year (pyMax ps)) (none, -1)
            (results.zip ps)).1 with
        | none => exact ⟨none, by simp [hfold]⟩
        | some b =>
          by_cases hthr : (List.foldl (bestStep (pyStrip title) year (pyMax ps)) (none, -1)
              (results.zip ps)).2 < (if yearTruthy year then 3 / 10 else 3 / 5)
          · exact ⟨none, by simp [hfold, hthr]⟩
          · exact ⟨acceptPoster b, by simp [hfold, hthr]⟩

/-- Witness for C2 (amended) at concrete inputs: a candidate with an
unparseable date scores as if undated, and a call whose popularities are
numeric or absent returns without raising. -/
theorem resolve_dates_degrade_and_total_witness :
    (pyInt (pyTake (candDate cOddDate) 4) = none ∧
      candScore "aa" (some 1999) 1 cOddDate 0 =
        candScore "aa" (some 1999) 1 (stripDates cOddDate) 0) ∧
    ((∀ r ∈ [cOddDate, cPlain], ∃ q, pyFloat (popRaw r) = .ok q) ∧
      ∃ o, get_tmdb_poster "aa" (some 1999) [cOddDate, cPlain] = .ok o) := by
  have hdate : pyInt (pyTake (candDate cOddDate) 4) = none := by decide
  have hpops : ∀ r ∈ [cOddDate, cPlain], ∃ q, pyFloat (popRaw r) = .ok q := by
    intro r hr
    rcases List.mem_cons.mp hr with h | h
    · exact ⟨80, by rw [h]; rfl⟩
    · rcases List.mem_cons.mp h with h1 | h1
      · exact ⟨0, by rw [h1]; rfl⟩
      · cases h1
  exact ⟨⟨hdate, resolve_dates_degrade_and_total.1 "aa" (some 1999) 1 0 cOddDate hdate⟩,
    ⟨hpops, resolve_dates_degrade_and_total.2 "aa" (some 1999) [cOddDate, cPlain] hpops⟩⟩

/-- C6: the composite score the resolver computes for each candidate of a
call equals the specification formula: with a (truthy) query year,
`0.6 * titleSim + 0.3 * yearScore + 0.1 * popNorm` with the year-distance
table of `specYearScore`; without one, `0.85 * titleSim + 0.15 * popNorm`;
`popNorm` is the candidate popularity over the maximum popularity of the
call, 0 when that maximum is 0 (the popularities of a well-typed call are
non-negative).  A query year of 0 counts as absent, per C10. -/
theorem candScore_matches_spec (title : String) (year : Option Int)
    (results : List Candidate) (ps : List ℚ) (hps : popsOf results = .ok ps)
    (hnn : ∀ p ∈ ps, 0 ≤ p) (r : Candidate) (p : ℚ)
    (hmem : (r, p) ∈ results.zip ps) :
    (∀ y : Int, year = some y → y ≠ 0 →
      candScore title year (pyMax ps) r p =
        3 / 5 * seqMatchScore (pyLower title) (pyLower (candTitle r)) +
          3 / 10 * specYearScore y r + 1 / 10 * specPopNorm (pyMax ps) p) ∧
    (yearTruthy year = false →
      candScore title year (pyMax ps) r p =
        17 / 20 * seqMatchScore (pyLower title) (pyLower (candTitle r)) +
          3 / 20 * specPopNorm (pyMax ps) p) := by
  have hmax : 0 ≤ pyMax ps := pyMax_nonneg ps hnn
  have hpn : (if 0 < pyMax ps then p / pyMax ps else 0) = specPopNorm (pyMax ps) p := by
    rcases eq_or_lt_of_le hmax with h0 | h0
    · rw [specPopNorm, if_pos h0.symm, if_neg (by rw [← h0]; exact lt_irrefl 0)]
    · rw [specPopNorm, if_pos h0, if_neg (ne_of_gt h0)]
  constructor
  · intro y hy hy0
    subst hy
    have hyt : yearTruthy (some y) = true := by
      simp [yearTruthy, hy0]
    have hys : (if candDate r ≠ "" then
        (match pyInt (pyTake (candDate r) 4) with
          | some ry =>
            if ((ry - (some y : Option Int).getD 0).natAbs = 0 : Prop) then (1 : ℚ)
            else if (ry - (some y : Option Int).getD 0).natAbs ≤ 1 then 7 / 10
            else if (ry - (some y : Option Int).getD 0).natAbs ≤ 3 then 2 / 5
            else 0
          | none => 0)
        else 0) = specYearScore y r := by
      by_cases hrd : candDate r = ""
      · simp [hrd, specYearScore, specCandYear]
      · simp only [hrd, specYearScore, specCandYear, if_neg hrd, ne_eq,
          not_false_eq_true, if_true, Option.getD_some]
        cases pyInt (pyTake (candDate r) 4) with
        | none => rfl
        | some ry => rfl
    simp only [candScore, hyt, if_true, hpn, hys]
  · intro hyf
    simp only [candScore, hyf, Bool.false_eq_true, if_false, hpn]

/-- Witness for C6 at a concrete call with a year: the hypotheses hold and
the score of the single candidate follows the 0.6/0.3/0.1 formula. -/
theorem candScore_matches_spec_witness :
    popsOf [cYear] = .ok [2] ∧ (∀ p ∈ ([2] : List ℚ), 0 ≤ p) ∧
      (cYear, (2 : ℚ)) ∈ [cYear].zip [2] ∧ (1999 : Int) ≠ 0 ∧
      candScore "ab" (some 1999) (pyMax [2]) cYear 2 =
        3 / 5 * seqMatchScore (pyLower "ab") (pyLower (candTitle cYear)) +
          3 / 10 * specYearScore 1999 cYear + 1 / 10 * specPopNorm (pyMax [2]) 2 := by
  have hps : popsOf [cYear] = .ok [2] := rfl
  have hnn : ∀ p ∈ ([2] : List ℚ), 0 ≤ p := by
    intro p hp
    rcases List.mem_cons.mp hp with h | h
    · rw [h]; norm_num
    · cases h
  have hmem : (cYear, (2 : ℚ)) ∈ [cYear].zip [2] := List.mem_singleton.mpr rfl
  exact ⟨hps, hnn, hmem, by decide,
    (candScore_matches_spec "ab" (some 1999) [cYear] [2] hps hnn cYear 2 hmem).1
      1999 rfl (by decide)⟩

/-- C7: with an empty candidate list the resolver returns `None` for every
query; otherwise (for a non-blank stripped title, per C9, and a call whose
popularities parse) the resolver selects the first candidate in input order
attaining the maximum composite score and returns `None` exactly when that
winning score is below the applicable threshold, 0.30 with a (truthy) query
year and 0.60 without one; on acceptance the winner's poster is returned. -/
theorem resolve_picks_first_max_with_threshold (title : String) (year : Option Int)
    (results : List Candidate) :
    (results = [] → get_tmdb_poster title year results = .ok none) ∧
    (∀ ps, popsOf results = .ok ps → results ≠ [] → pyStrip title ≠ "" →
      get_tmdb_poster title year results = .ok
        (match firstBest (pyStrip title) year results ps with
         | some w =>
           if winningScore (pyStrip title) year results ps <
               (if yearTruthy year then 3 / 10 else 3 / 5) then none
           else acceptPoster w.1
         | none => none)) := by
  constructor
  · intro h
    subst h
    by_cases h1 : pyStrip title = "" <;> simp [get_tmdb_poster, h1]
  · intro ps hps hne hblank
    have hlen : ps.length = results.length := popsOf_length results ps hps
    have hzipne : results.zip ps ≠ [] := by
      have hpos : 0 < (results.zip ps).length := by
        rw [List.length_zip, hlen, min_self]
        exact List.length_pos.mpr hne
      exact List.ne_nil_of_length_pos hpos
    have hempty : results.isEmpty = false := by
      simp [List.isEmpty_iff, hne]
    set M := winningScore (pyStrip title) year results ps with hMdef
    have hMmax : M = pyMax ((results.zip ps).map
        (fun x => candScore (pyStrip title) year (pyMax ps) x.1 x.2)) := rfl
    by_cases hM1 : (-1 : ℚ) < M
    · obtain ⟨w, hw1, hw2⟩ := foldl_bestStep_argmax (pyStrip title) year (pyMax ps)
        (results.zip ps) none (-1) hzipne (by rw [← hMmax]; exact hM1)
      have hfb : firstBest (pyStrip title) year results ps = some w := by
        rw [firstBest, ← hMdef]
        rw [← hMmax] at hw1
        exact hw1
      simp only [get_tmdb_poster, hblank, if_false, hempty, Bool.false_eq_true, hps, hfb]
      rw [hw2, ← hMmax]
      by_cases hthr : M < (if yearTruthy year = true then (3 : ℚ) / 10 else 3 / 5) <;>
        simp [hthr]
    · have hall : ∀ x ∈ results.zip ps,
          candScore (pyStrip title) year (pyMax ps) x.1 x.2 ≤ (-1 : ℚ) := by
        intro x hx
        have := mem_le_pyMax _ _ (List.mem_map_of_mem
          (fun z => candScore (pyStrip title) year (pyMax ps) z.1 z.2) hx)
        rw [← hMmax] at this
        exact le_trans this (not_lt.mp hM1)
      have hfold : (results.zip ps).foldl (bestStep (pyStrip title) year (pyMax ps))
          (none, -1) = (none, -1) :=
        foldl_bestStep_const _ _ _ _ none (-1) hall
      have hMle : M < (if yearTruthy year then (3 : ℚ) / 10 else 3 / 5) := by
        rcases not_lt.mp hM1 with h
        have h2 : (-1 : ℚ) < if yearTruthy year then (3 : ℚ) / 10 else 3 / 5 := by
          by_cases hy : yearTruthy year <;> simp [hy] <;> norm_num
        exact lt_of_le_of_lt h h2
      have hfbsome : ∃ w, firstBest (pyStrip title) year results ps = some w := by
        have hmemM : M ∈ (results.zip ps).map
            (fun x => candScore (pyStrip title) year (pyMax ps) x.1 x.2) := by
          rw [hMmax]
          apply pyMax_mem
          simpa using hzipne
        obtain ⟨x, hx1, hx2⟩ := List.mem_map.mp hmemM
        have : (firstBest (pyStrip title) year results ps).isSome := by
          rw [firstBest]
          apply List.find?_isSome.mpr
          exact ⟨x, hx1, by simp [hx2, hMdef]⟩
        exact Option.isSome_iff_exists.mp this
      obtain ⟨w, hw⟩ := hfbsome
      simp only [get_tmdb_poster, hblank, if_false, hempty, Bool.false_eq_true, hps, hfold,
        hw, hMle, if_true]

/-- Witness for C7 at a concrete two-candidate call without a year. -/
theorem resolve_picks_first_max_with_threshold_witness :
    popsOf [cOddDate, cPlain] = .ok [80, 0] ∧
      ([cOddDate, cPlain] : List Candidate) ≠ [] ∧ pyStrip "aa" ≠ "" ∧
      get_tmdb_poster "aa" none [cOddDate, cPlain] = .ok
        (match firstBest (pyStrip "aa") none [cOddDate, cPlain] [80, 0] with
         | some w =>
           if winningScore (pyStrip "aa") none [cOddDate, cPlain] [80, 0] <
               (if yearTruthy none then 3 / 10 else 3 / 5) then none
           else acceptPoster w.1
         | none => none) := by
  have h1 : popsOf [cOddDate, cPlain] = .ok [80, 0] := rfl
  have h2 : ([cOddDate, cPlain] : List Candidate) ≠ [] := List.cons_ne_nil _ _
  have h3 : pyStrip "aa" ≠ "" := by decide
  exact ⟨h1, h2, h3,
    (resolve_picks_first_max_with_threshold "aa" none [cOddDate, cPlain]).2 [80, 0] h1 h2 h3⟩

/-- C3 counterexample: the claim says the core returns exactly the
candidate's image path fragment and never prepends the image-host base URL,
but on acceptance the code returns
`f"https://image.tmdb.org/t/p/w500{poster_path}"`: at a concrete accepting
call the returned value is the full URL, not the stored fragment. -/
theorem resolve_returns_full_url_counterexample :
    get_tmdb_poster "aa" none [cPlain] = .ok (some "https://image.tmdb.org/t/p/w500/x.jpg") ∧
      cPlain.poster_path = some "/x.jpg" ∧
      get_tmdb_poster "aa" none [cPlain] ≠ .ok (some "/x.jpg") := by
  have hts : seqMatchScore (pyLower "aa") (pyLower (candTitle cPlain)) = 1 := by
    have ha : (pyLower "aa").data = ['a', 'a'] := by decide
    have hb : (pyLower (candTitle cPlain)).data = ['a', 'a'] := by decide
    have hmt : matchTotal 4 ['a', 'a'] ['a', 'a'] = 2 := by decide
    simp only [seqMatchScore, ha, hb, List.length_cons, List.length_nil, hmt]
    norm_num
  have hscore : candScore (pyStrip "aa") none (pyMax [0]) cPlain 0 = 17 / 20 := by
    have hstrip : pyStrip "aa" = "aa" := by decide
    have hmax : pyMax [0] = (0 : ℚ) := rfl
    simp only [candScore, hstrip, hmax, yearTruthy, Bool.false_eq_true, if_false,
      lt_irrefl, hts]
    norm_num
  have hfold : [(cPlain, (0 : ℚ))].foldl (bestStep (pyStrip "aa") none (pyMax [0]))
      (none, -1) = (some cPlain, 17 / 20) := by
    rw [List.foldl_cons, List.foldl_nil, bestStep]
    simp only [hscore]
    norm_num
  have hmain : get_tmdb_poster "aa" none [cPlain] =
      .ok (some "https://image.tmdb.org/t/p/w500/x.jpg") := by
    have hblank : (pyStrip "aa" = "") = False := by
      simp only [eq_iff_iff, iff_false]
      decide
    have hzip : ([cPlain].zip [(0 : ℚ)]) = [(cPlain, (0 : ℚ))] := rfl
    have hpops : popsOf [cPlain] = .ok [0] := rfl
    simp only [get_tmdb_poster, hblank, if_false, List.isEmpty_cons, Bool.false_eq_true,
      hpops, hzip, hfold]
    norm_num [yearTruthy, acceptPoster, cPlain]
    exact ⟨by decide, by decide⟩
  refine ⟨hmain, rfl, ?_⟩
  intro h
  rw [hmain] at h
  have h1 := Option.some.inj (Except.ok.inj h)
  exact absurd h1 (by decide)


theorem foldl_bestStep_mem (t : String) (y : Option Int) (mp : ℚ)
    (l : List (Candidate × ℚ)) :
    ∀ (b0 : Option Candidate) (s0 : ℚ) (b : Candidate),
      (l.foldl (bestStep t y mp) (b0, s0)).1 = some b →
      b0 = some b ∨ ∃ q, (b, q) ∈ l := by
  induction l with
  | nil => intro b0 s0 b h; exact Or.inl h
  | cons x xs ih =>
    intro b0 s0 b h
    rw [List.foldl_cons] at h
    by_cases hx : s0 < candScore t y mp x.1 x.2
    · have hstep : bestStep t y mp (b0, s0) x = (some x.1, candScore t y mp x.1 x.2) := by
        simp [bestStep, hx]
      rw [hstep] at h
      rcases ih (some x.1) (candScore t y mp x.1 x.2) b h with h1 | h1
      · refine Or.inr ⟨x.2, ?_⟩
        have hb : b = x.1 := (Option.some.inj h1).symm
        rw [hb, Prod.mk.eta]
        exact List.mem_cons_self x xs
      · obtain ⟨q, hq⟩ := h1
        exact Or.inr ⟨q, List.mem_cons_of_mem x hq⟩
    · have hstep : bestStep t y mp (b0, s0) x = (b0, s0) := by
        simp [bestStep, hx]
      rw [hstep] at h
      rcases ih b0 s0 b h with h1 | h1
      · exact Or.inl h1
      · obtain ⟨q, hq⟩ := h1
        exact Or.inr ⟨q, List.mem_cons_of_mem x hq⟩

/-- C3 (amended): whenever the resolver accepts a candidate, the returned
value is the base image-host URL `https://image.tmdb.org/t/p/w500` followed
by that candidate's (nonempty) poster path — so the code itself, not its
caller, constructs the full URL, contrary to the claim's fragment-only
reading. -/
theorem resolve_accepted_value_is_prefixed_path (title : String) (year : Option Int)
    (results : List Candidate) (s : String)
    (h : get_tmdb_poster title year results = .ok (some s)) :
    ∃ b ∈ results, ∃ p, b.poster_path = some p ∧ p ≠ "" ∧
      s = "https://image.tmdb.org/t/p/w500" ++ p := by
  by_cases h1 : pyStrip title = ""
  · simp [get_tmdb_poster, h1] at h
  · by_cases h2 : results.isEmpty
    · simp [get_tmdb_poster, h1, h2] at h
    · cases hpops : popsOf results with
      | error e => simp [get_tmdb_poster, h1, h2, hpops] at h
      | ok ps =>
        simp only [get_tmdb_poster, h1, if_false, h2, Bool.false_eq_true, hpops] at h
        cases hfold : ((results.zip ps).foldl
            (bestStep (pyStrip title) year (pyMax ps)) (none, -1)).1 with
        | none => rw [hfold] at h; simp at h
        | some b =>
          rw [hfold] at h
          dsimp only at h
          by_cases hthr : ((results.zip ps).foldl
              (bestStep (pyStrip title) year (pyMax ps)) (none, -1)).2 <
              (if yearTruthy year then (3 : ℚ) / 10 else 3 / 5)
          · rw [if_pos hthr] at h
            simp at h
          · rw [if_neg hthr] at h
            have hb := Except.ok.inj h
            cases hpp : b.poster_path with
            | none => rw [acceptPoster, hpp] at hb; cases hb
            | some p =>
              rw [acceptPoster, hpp] at hb
              dsimp only at hb
              by_cases hpe : p = ""
              · rw [if_pos hpe] at hb; cases hb
              · rw [if_neg hpe] at hb
                have hs := Option.some.inj hb
                have hbm := foldl_bestStep_mem (pyStrip title) year (pyMax ps)
                  (results.zip ps) none (-1) b hfold
                rcases hbm with h3 | ⟨q, hq⟩
                · cases h3
                · exact ⟨b, (List.of_mem_zip hq).1, p, hpp, hpe, hs.symm⟩

/-- Witness for C3 (amended) at the same concrete accepting call as the
counterexample: the hypothesis holds and the returned string decomposes as
base URL plus the candidate's stored path. -/
theorem resolve_accepted_value_is_prefixed_path_witness :
    get_tmdb_poster "aa" none [cPlain] = .ok (some "https://image.tmdb.org/t/p/w500/x.jpg") ∧
      ∃ b ∈ [cPlain], ∃ p, b.poster_path = some p ∧ p ≠ "" ∧
        "https://image.tmdb.org/t/p/w500/x.jpg" = "https://image.tmdb.org/t/p/w500" ++ p := by
  have hts : seqMatchScore (pyLower "aa") (pyLower (candTitle cPlain)) = 1 := by
    have ha : (pyLower "aa").data = ['a', 'a'] := by decide
    have hb : (pyLower (candTitle cPlain)).data = ['a', 'a'] := by decide
    have hmt : matchTotal 4 ['a', 'a'] ['a', 'a'] = 2 := by decide
    simp only [seqMatchScore, ha, hb, List.length_cons, List.length_nil, hmt]
    norm_num
  have hscore : candScore (pyStrip "aa") none (pyMax [0]) cPlain 0 = 17 / 20 := by
    have hstrip : pyStrip "aa" = "aa" := by decide
    have hmax : pyMax [0] = (0 : ℚ) := rfl
    simp only [candScore, hstrip, hmax, yearTruthy, Bool.false_eq_true, if_false,
      lt_irrefl, hts]
    norm_num
  have hfold : [(cPlain, (0 : ℚ))].foldl (bestStep (pyStrip "aa") none (pyMax [0]))
      (none, -1) = (some cPlain, 17 / 20) := by
    rw [List.foldl_cons, List.foldl_nil, bestStep]
    simp only [hscore]
    norm_num
  have hmain : get_tmdb_poster "aa" none [cPlain] =
      .ok (some "https://image.tmdb.org/t/p/w500/x.jpg") := by
    have hblank : (pyStrip "aa" = "") = False := by
      simp only [eq_iff_iff, iff_false]
      decide
    have hzip : ([cPlain].zip [(0 : ℚ)]) = [(cPlain, (0 : ℚ))] := rfl
    have hpops : popsOf [cPlain] = .ok [0] := rfl
    simp only [get_tmdb_poster, hblank, if_false, List.isEmpty_cons, Bool.false_eq_true,
      hpops, hzip, hfold]
    norm_num [yearTruthy, acceptPoster, cPlain]
    exact ⟨by decide, by decide⟩
  exact ⟨hmain, resolve_accepted_value_is_prefixed_path "aa" none [cPlain] _ hmain⟩

/-- C4: on an empty catalog the combined column is empty, the fitted
vocabulary is empty, and index construction fails with the distinguished
empty-vocabulary error before any similarity matrix exists (the `Except`
carries no matrix in the error case). -/
theorem build_empty_catalog_fails :
    build_model (load_data []) = .error .emptyVocabulary := rfl

/-- C5: the combined text field is exactly
`title + " " + director + " " + cast + " " + genres` with the empty string
substituted for a missing director or cast; and any row with a missing
genres (`listed_in`) cell propagates NaN into the combined column, which
makes vectorization fail with the invalid-document `ValueError` (the
pipeline's `DataError`), surfaced to the caller instead of a silent
coercion. -/
theorem load_combined_exact_and_missing_genres_fails :
    (∀ (r : Row) (g : String), r.listed_in = some g →
      combinedOf r =
        some (r.title ++ " " ++ r.director.getD "" ++ " " ++ r.cast.getD "" ++ " " ++ g)) ∧
    (∀ rows : List Row, (∃ r ∈ rows, r.listed_in = none) →
      build_model (load_data rows) = .error .invalidDocument) := by
  constructor
  · intro r g hg
    simp [combinedOf, hg]
  · intro rows h
    obtain ⟨r, hr, hnone⟩ := h
    have hany : (load_data rows).any (fun d => d.isNone) = true := by
      rw [List.any_eq_true]
      refine ⟨combinedOf r, List.mem_map_of_mem _ hr, ?_⟩
      simp [combinedOf, hnone]
    simp [build_model, hany]

/-- Witness for C5: a concrete row with genres present builds the exact
concatenation, and a concrete catalog containing a genres-less row fails
with the invalid-document error. -/
theorem load_combined_exact_and_missing_genres_fails_witness :
    ((⟨"ab", none, none, some "cd"⟩ : Row).listed_in = some "cd" ∧
      combinedOf ⟨"ab", none, none, some "cd"⟩ =
        some ("ab" ++ " " ++ "" ++ " " ++ "" ++ " " ++ "cd")) ∧
    ((∃ r ∈ [(⟨"zz", none, none, none⟩ : Row)], r.listed_in = none) ∧
      build_model (load_data [⟨"zz", none, none, none⟩]) = .error .invalidDocument) := by
  refine ⟨⟨rfl, ?_⟩, ⟨⟨⟨"zz", none, none, none⟩, List.mem_cons_self _ _, rfl⟩, ?_⟩⟩
  · exact load_combined_exact_and_missing_genres_fails.1 ⟨"ab", none, none, some "cd"⟩ "cd" rfl
  · exact load_combined_exact_and_missing_genres_fails.2 [⟨"zz", none, none, none⟩]
      ⟨⟨"zz", none, none, none⟩, List.mem_cons_self _ _, rfl⟩

/-! ## Lemmas about the cosine model -/

theorem dotV_comm (N : ℕ) (u v : ℕ → ℝ) : dotV N u v = dotV N v u := by
  unfold dotV
  exact Finset.sum_congr rfl (fun k _ => mul_comm (u k) (v k))

theorem dotV_self_nonneg (N : ℕ) (u : ℕ → ℝ) : 0 ≤ dotV N u u :=
  Finset.sum_nonneg (fun k _ => mul_self_nonneg (u k))

theorem dotV_nonneg (N : ℕ) (u v : ℕ → ℝ) (hu : ∀ k, 0 ≤ u k) (hv : ∀ k, 0 ≤ v k) :
    0 ≤ dotV N u v :=
  Finset.sum_nonneg (fun k _ => mul_nonneg (hu k) (hv k))

theorem dotV_cauchy (N : ℕ) (u v : ℕ → ℝ) :
    (dotV N u v) ^ 2 ≤ dotV N u u * dotV N v v := by
  have h := Finset.sum_mul_sq_le_sq_mul_sq (Finset.range N) u v
  have h1 : dotV N u u = ∑ k in Finset.range N, u k ^ 2 :=
    Finset.sum_congr rfl (fun k _ => (sq (u k)).symm ▸ rfl)
  have h2 : dotV N v v = ∑ k in Finset.range N, v k ^ 2 :=
    Finset.sum_congr rfl (fun k _ => (sq (v k)).symm ▸ rfl)
  rw [dotV, h1, h2]
  exact h

theorem dotV_eq_zero_of_self_zero (N : ℕ) (u v : ℕ → ℝ) (h : dotV N u u = 0) :
    dotV N u v = 0 := by
  have hc := dotV_cauchy N u v
  rw [h, zero_mul] at hc
  have h0 : (dotV N u v) ^ 2 = 0 := le_antisymm hc (sq_nonneg _)
  exact sq_eq_zero_iff.mp h0

theorem nz_pos (x : ℝ) (h : 0 ≤ x) : 0 < nz x := by
  unfold nz
  by_cases h0 : x = 0
  · simp [h0]
  · simp [h0]
    exact lt_of_le_of_ne h (Ne.symm h0)

theorem cosSim_symm (N : ℕ) (u v : ℕ → ℝ) : cosSim N u v = cosSim N v u := by
  unfold cosSim
  rw [dotV_comm N u v, mul_comm]

theorem cosSim_nonneg (N : ℕ) (u v : ℕ → ℝ) (hu : ∀ k, 0 ≤ u k) (hv : ∀ k, 0 ≤ v k) :
    0 ≤ cosSim N u v := by
  unfold cosSim
  apply div_nonneg (dotV_nonneg N u v hu hv)
  exact le_of_lt (mul_pos (nz_pos _ (Real.sqrt_nonneg _)) (nz_pos _ (Real.sqrt_nonneg _)))

theorem cosSim_zero_of_self_zero (N : ℕ) (u v : ℕ → ℝ) (h : dotV N u u = 0) :
    cosSim N u v = 0 := by
  unfold cosSim
  rw [dotV_eq_zero_of_self_zero N u v h, zero_div]

theorem cosSim_le_one (N : ℕ) (u v : ℕ → ℝ) : cosSim N u v ≤ 1 := by
  by_cases hu : dotV N u u = 0
  · rw [cosSim_zero_of_self_zero N u v hu]
    norm_num
  · by_cases hv : dotV N v v = 0
    · unfold cosSim
      rw [dotV_comm N u v, dotV_eq_zero_of_self_zero N v u hv, zero_div]
      norm_num
    · have huu : 0 < dotV N u u := lt_of_le_of_ne (dotV_self_nonneg N u) (Ne.symm hu)
      have hvv : 0 < dotV N v v := lt_of_le_of_ne (dotV_self_nonneg N v) (Ne.symm hv)
      have hsu : 0 < Real.sqrt (dotV N u u) := Real.sqrt_pos.mpr huu
      have hsv : 0 < Real.sqrt (dotV N v v) := Real.sqrt_pos.mpr hvv
      have hnzu : nz (Real.sqrt (dotV N u u)) = Real.sqrt (dotV N u u) := by
        unfold nz
        rw [if_neg (ne_of_gt hsu)]
      have hnzv : nz (Real.sqrt (dotV N v v)) = Real.sqrt (dotV N v v) := by
        unfold nz
        rw [if_neg (ne_of_gt hsv)]
      unfold cosSim
      rw [hnzu, hnzv]
      rw [div_le_one (mul_pos hsu hsv)]
      calc dotV N u v ≤ |dotV N u v| := le_abs_self _
        _ = Real.sqrt ((dotV N u v) ^ 2) := (Real.sqrt_sq_eq_abs _).symm
        _ ≤ Real.sqrt (dotV N u u * dotV N v v) := Real.sqrt_le_sqrt (dotV_cauchy N u v)
        _ = Real.sqrt (dotV N u u) * Real.sqrt (dotV N v v) :=
            Real.sqrt_mul (dotV_self_nonneg N u) _

theorem cosSim_self (N : ℕ) (u : ℕ → ℝ) (h : dotV N u u ≠ 0) : cosSim N u u = 1 := by
  have huu : 0 < dotV N u u := lt_of_le_of_ne (dotV_self_nonneg N u) (Ne.symm h)
  have hsu : 0 < Real.sqrt (dotV N u u) := Real.sqrt_pos.mpr huu
  unfold cosSim nz
  rw [if_neg (ne_of_gt hsu), Real.mul_self_sqrt (le_of_lt huu)]
  exact div_self h

theorem dfreq_le (t : String) (toks : List (List String)) : dfreq t toks ≤ toks.length :=
  List.length_filter_le _ _

theorem idfOf_nonneg (n dft : ℕ) (h : dft ≤ n) : 0 ≤ idfOf n dft := by
  unfold idfOf
  have hpos : (0 : ℝ) < 1 + dft := by positivity
  have hone : (1 : ℝ) ≤ (1 + n) / (1 + dft) := by
    rw [le_div_iff hpos]
    have : (dft : ℝ) ≤ n := Nat.cast_le.mpr h
    linarith
  have hlog : 0 ≤ Real.log ((1 + n) / (1 + dft)) := Real.log_nonneg hone
  linarith

theorem docVec_nonneg (docs : List (Option String)) (i k : ℕ) : 0 ≤ docVec docs i k := by
  unfold docVec
  exact mul_nonneg (Nat.cast_nonneg _) (idfOf_nonneg _ _ (dfreq_le _ _))

theorem simOf_symm (docs : List (Option String)) (i j : ℕ) :
    simOf docs i j = simOf docs j i :=
  cosSim_symm _ _ _

theorem simOf_nonneg (docs : List (Option String)) (i j : ℕ) : 0 ≤ simOf docs i j :=
  cosSim_nonneg _ _ _ (docVec_nonneg docs i) (docVec_nonneg docs j)

theorem simOf_le_one (docs : List (Option String)) (i j : ℕ) : simOf docs i j ≤ 1 :=
  cosSim_le_one _ _ _

theorem simOf_diag_one (docs : List (Option String)) (i : ℕ)
    (h : dotV (vocabOf docs).length (docVec docs i) (docVec docs i) ≠ 0) :
    simOf docs i i = 1 :=
  cosSim_self _ _ h

theorem simOf_le_diag (docs : List (Option String)) (i j : ℕ) :
    simOf docs i j ≤ simOf docs i i := by
  by_cases h : dotV (vocabOf docs).length (docVec docs i) (docVec docs i) = 0
  · have h1 : simOf docs i j = 0 := cosSim_zero_of_self_zero _ _ _ h
    have h2 : simOf docs i i = 0 := cosSim_zero_of_self_zero _ _ _ h
    rw [h1, h2]
  · rw [simOf_diag_one docs i h]
    exact simOf_le_one docs i j

theorem build_model_ok_elim (docs : List (Option String)) (M : ℕ → ℕ → ℝ)
    (h : build_model docs = .ok M) : M = simOf docs := by
  unfold build_model at h
  by_cases h1 : docs.any (fun d => d.isNone) = true
  · rw [if_pos h1] at h
    exact Except.noConfusion h
  · rw [if_neg h1] at h
    by_cases h2 : (vocabOf docs).isEmpty = true
    · rw [if_pos h2] at h
      exact Except.noConfusion h
    · rw [if_neg h2] at h
      exact (Except.ok.inj h).symm

/-- C8 (amended): for every catalog of size at least 2 whose index builds,
the similarity matrix is symmetric with every entry in the interval from 0
to 1, and the diagonal entry of a row equals 1.0 whenever that row's TF-IDF
vector is nonzero (a row with no counted terms — no token of length at
least two outside the stop list — has diagonal 0.0 instead, because sklearn
leaves zero rows at zero). -/
theorem simMatrix_props (rows : List Row) (M : ℕ → ℕ → ℝ)
    (hbuild : build_model (load_data rows) = .ok M) (hsize : 2 ≤ rows.length) :
    ∀ i j, i < rows.length → j < rows.length →
      M i j = M j i ∧ 0 ≤ M i j ∧ M i j ≤ 1 ∧
        (dotV (vocabOf (load_data rows)).length (docVec (load_data rows) i)
            (docVec (load_data rows) i) ≠ 0 → M i i = 1) := by
  have hM : M = simOf (load_data rows) := build_model_ok_elim _ _ hbuild
  subst hM
  intro i j _ _
  exact ⟨simOf_symm _ i j, simOf_nonneg _ i j, simOf_le_one _ i j,
    fun h => simOf_diag_one _ i h⟩

/-- C8 counterexample: the claim asserts a diagonal of exactly 1.0 for
every catalog of size at least 2, but in the two-row catalog whose second
row is titled "z" with genres "z" no token reaches the minimum length of
two, the row vectorizes to zero, and its diagonal similarity is 0.0, not
1.0 — even though the index builds (the first row supplies the
vocabulary). -/
theorem simMatrix_diag_counterexample :
    2 ≤ catalogZ.length ∧
      build_model (load_data catalogZ) = .ok (simOf (load_data catalogZ)) ∧
      simOf (load_data catalogZ) 1 1 ≠ 1 := by
  refine ⟨le_refl 2, rfl, ?_⟩
  have htoks : (docsTokens (load_data catalogZ)).getD 1 [] = [] := by decide
  have hv : ∀ k, docVec (load_data catalogZ) 1 k = 0 := by
    intro k
    show (tfOf ((vocabOf (load_data catalogZ)).getD k "")
        ((docsTokens (load_data catalogZ)).getD 1 []) : ℝ) *
        idfOf (docsTokens (load_data catalogZ)).length
          (dfreq ((vocabOf (load_data catalogZ)).getD k "")
            (docsTokens (load_data catalogZ))) = 0
    rw [htoks]
    simp [tfOf]
  have hdot : dotV (vocabOf (load_data catalogZ)).length (docVec (load_data catalogZ) 1)
      (docVec (load_data catalogZ) 1) = 0 := by
    unfold dotV
    apply Finset.sum_eq_zero
    intro k _
    rw [hv k, zero_mul]
  have h0 : simOf (load_data catalogZ) 1 1 = 0 :=
    cosSim_zero_of_self_zero _ _ _ hdot
  rw [h0]
  norm_num

/-- Witness for C8 (amended) at a concrete two-row catalog with disjoint
four-token vocabulary. -/
theorem simMatrix_props_witness :
    build_model (load_data catalogTwo) = .ok (simOf (load_data catalogTwo)) ∧
      2 ≤ catalogTwo.length ∧
      (∀ i j, i < catalogTwo.length → j < catalogTwo.length →
        simOf (load_data catalogTwo) i j = simOf (load_data catalogTwo) j i ∧
          0 ≤ simOf (load_data catalogTwo) i j ∧ simOf (load_data catalogTwo) i j ≤ 1 ∧
          (dotV (vocabOf (load_data catalogTwo)).length (docVec (load_data catalogTwo) i)
              (docVec (load_data catalogTwo) i) ≠ 0 →
            simOf (load_data catalogTwo) i i = 1)) :=
  ⟨rfl, le_refl 2, simMatrix_props catalogTwo (simOf (load_data catalogTwo)) rfl (le_refl 2)⟩

/-! ## Lemmas about the stable descending sort and recommend -/

theorem insertDesc_perm (x : ℕ × ℝ) (l : List (ℕ × ℝ)) :
    (insertDesc x l).Perm (x :: l) := by
  induction l with
  | nil => exact List.Perm.refl _
  | cons y ys ih =>
    rw [insertDesc]
    by_cases h : x.2 < y.2
    · rw [if_pos h]
      exact List.Perm.trans (ih.cons y) (List.Perm.swap x y ys)
    · rw [if_neg h]

theorem sortDesc_perm (l : List (ℕ × ℝ)) : (sortDesc l).Perm l := by
  induction l with
  | nil => exact List.Perm.refl _
  | cons x xs ih =>
    show (insertDesc x (sortDesc xs)).Perm (x :: xs)
    exact (insertDesc_perm x (sortDesc xs)).trans (ih.cons x)

theorem insertDesc_pairwise (x : ℕ × ℝ) (l : List (ℕ × ℝ))
    (hl : l.Pairwise (fun a b => b.2 < a.2 ∨ (a.2 = b.2 ∧ a.1 < b.1)))
    (hidx : ∀ y ∈ l, x.1 < y.1) :
    (insertDesc x l).Pairwise (fun a b => b.2 < a.2 ∨ (a.2 = b.2 ∧ a.1 < b.1)) := by
  induction l with
  | nil => simp [insertDesc]
  | cons y ys ih =>
    rw [insertDesc]
    rcases List.pairwise_cons.mp hl with ⟨hy, hys⟩
    by_cases h : x.2 < y.2
    · rw [if_pos h]
      apply List.pairwise_cons.mpr
      refine ⟨?_, ih hys (fun y2 hy2 => hidx y2 (List.mem_cons_of_mem y hy2))⟩
      intro z hz
      have hz2 := (insertDesc_perm x ys).mem_iff.mp hz
      rcases List.mem_cons.mp hz2 with hzx | hzys
      · subst hzx
        exact Or.inl h
      · exact hy z hzys
    · rw [if_neg h]
      apply List.pairwise_cons.mpr
      refine ⟨?_, hl⟩
      intro z hz
      rcases List.mem_cons.mp hz with hzy | hzys
      · subst hzy
        rcases lt_or_eq_of_le (not_lt.mp h) with h1 | h1
        · exact Or.inl h1
        · exact Or.inr ⟨h1.symm, hidx z (List.mem_cons_self z ys)⟩
      · have hyz := hy z hzys
        have hz2 : z.2 ≤ x.2 := by
          rcases hyz with h2 | h2
          · exact le_trans (le_of_lt h2) (not_lt.mp h)
          · exact le_trans (le_of_eq h2.1.symm) (not_lt.mp h)
        rcases lt_or_eq_of_le hz2 with h3 | h3
        · exact Or.inl h3
        · exact Or.inr ⟨h3.symm, hidx z (List.mem_cons_of_mem y hzys)⟩

theorem sortDesc_pairwise (l : List (ℕ × ℝ))
    (h : l.Pairwise (fun a b => a.1 < b.1)) :
    (sortDesc l).Pairwise (fun a b => b.2 < a.2 ∨ (a.2 = b.2 ∧ a.1 < b.1)) := by
  induction l with
  | nil => exact List.Pairwise.nil
  | cons x xs ih =>
    rcases List.pairwise_cons.mp h with ⟨hx, hxs⟩
    show (insertDesc x (sortDesc xs)).Pairwise _
    apply insertDesc_pairwise
    · exact ih hxs
    · intro y hy
      exact hx y ((sortDesc_perm xs).mem_iff.mp hy)

theorem findIdx?_some_bound {α : Type} (p : α → Bool) :
    ∀ (l : List α) (i j : ℕ), List.findIdx? p l i = some j → i ≤ j ∧ j - i < l.length := by
  intro l
  induction l with
  | nil => intro i j h; exact Option.noConfusion h
  | cons x xs ih =>
    intro i j h
    rw [List.findIdx?_cons] at h
    by_cases hp : p x = true
    · rw [if_pos hp] at h
      have hij : i = j := Option.some.inj h
      subst hij
      exact ⟨le_refl i, by simp⟩
    · rw [if_neg hp] at h
      obtain ⟨h1, h2⟩ := ih (i + 1) j h
      constructor
      · omega
      · simp only [List.length_cons]
        omega

theorem enumRow_pairwise_fst (n idx : ℕ) (sim : ℕ → ℕ → ℝ) :
    (enumRow n idx sim).Pairwise (fun a b => a.1 < b.1) := by
  unfold enumRow
  exact List.pairwise_map.mpr ((List.pairwise_lt_range n).imp (fun h => h))

theorem mem_enumRow (n idx : ℕ) (sim : ℕ → ℕ → ℝ) (z : ℕ × ℝ)
    (h : z ∈ enumRow n idx sim) : z.1 < n ∧ z.2 = sim idx z.1 := by
  unfold enumRow at h
  obtain ⟨j, hj, hje⟩ := List.mem_map.mp h
  rw [← hje]
  exact ⟨List.mem_range.mp hj, rfl⟩

theorem enumRow_map_fst (n idx : ℕ) (sim : ℕ → ℕ → ℝ) :
    (enumRow n idx sim).map Prod.fst = List.range n := by
  unfold enumRow
  rw [List.map_map]
  exact List.map_id _

/-- C1 (amended): for every catalog whose index builds and every query
title occurring in it (resolving, case-insensitively, to the first matching
row `idx`), the recommendation list maps the recommended indices to titles,
contains at most 5 entries, and is ordered by non-increasing similarity to
the query row with ties broken by catalog order; and it excludes the query
row itself provided every earlier row is strictly less similar to the query
row than the query row's self-similarity (the code merely drops the head of
the stable descending sort, so a tie at the top — e.g. a duplicated-content
row earlier in the catalog, or a query row whose vector is zero — can leave
the query row in the output). -/
theorem recommend_props (rows : List Row) (M : ℕ → ℕ → ℝ) (title : String) (idx : ℕ)
    (hbuild : build_model (load_data rows) = .ok M)
    (hfind : (rows.map Row.title).findIdx? (fun t => pyLower t == pyLower title) = some idx)
    (hdom : ∀ j, j < idx → M idx j < M idx idx) :
    recommend title rows M =
      (topIndices rows.length idx M).map (fun j => (rows.map Row.title).getD j "") ∧
    idx ∉ topIndices rows.length idx M ∧
    (topIndices rows.length idx M).length ≤ 5 ∧
    (topIndices rows.length idx M).Pairwise
      (fun a b => M idx b ≤ M idx a ∧ (M idx a = M idx b → a < b)) := by
  have hM := build_model_ok_elim _ _ hbuild
  subst hM
  have hn : idx < rows.length := by
    have h := findIdx?_some_bound _ (rows.map Row.title) 0 idx hfind
    have h2 := h.2
    rw [List.length_map] at h2
    omega
  have hub : ∀ j, simOf (load_data rows) idx j ≤ simOf (load_data rows) idx idx :=
    fun j => simOf_le_diag _ idx j
  have hperm : (sortDesc (enumRow rows.length idx (simOf (load_data rows)))).Perm
      (enumRow rows.length idx (simOf (load_data rows))) := sortDesc_perm _
  have hpw : (sortDesc (enumRow rows.length idx (simOf (load_data rows)))).Pairwise
      (fun a b => b.2 < a.2 ∨ (a.2 = b.2 ∧ a.1 < b.1)) :=
    sortDesc_pairwise _ (enumRow_pairwise_fst _ _ _)
  have hmemself : (idx, simOf (load_data rows) idx idx) ∈
      enumRow rows.length idx (simOf (load_data rows)) := by
    unfold enumRow
    exact List.mem_map_of_mem _ (List.mem_range.mpr hn)
  have hsnil : sortDesc (enumRow rows.length idx (simOf (load_data rows))) ≠ [] := by
    intro h0
    have hlen := hperm.length_eq
    rw [h0] at hlen
    have hlen2 : (enumRow rows.length idx (simOf (load_data rows))).length = rows.length := by
      unfold enumRow
      rw [List.length_map, List.length_range]
    rw [← hlen] at hlen2
    simp at hlen2
    omega
  obtain ⟨hd, tail, hs⟩ := List.exists_cons_of_ne_nil hsnil
  have hdmem : hd ∈ enumRow rows.length idx (simOf (load_data rows)) :=
    hperm.mem_iff.mp (hs ▸ List.mem_cons_self hd tail)
  obtain ⟨hdlt, hdval⟩ := mem_enumRow _ _ _ hd hdmem
  have hhead : hd.1 = idx := by
    by_contra hne
    have hself_in : (idx, simOf (load_data rows) idx idx) ∈ hd :: tail := by
      rw [← hs]
      exact hperm.mem_iff.mpr hmemself
    rcases List.mem_cons.mp hself_in with h1 | h1
    · exact hne (by rw [← h1])
    · have hrank := (List.pairwise_cons.mp (hs ▸ hpw)).1 (idx, simOf (load_data rows) idx idx) h1
      rcases hrank with h2 | h2
      · rw [hdval] at h2
        exact absurd h2 (not_lt.mpr (hub hd.1))
      · have h3 := hdom hd.1 h2.2
        rw [← hdval] at h3
        rw [h2.1] at h3
        exact lt_irrefl _ h3
  have hnodup : ((sortDesc (enumRow rows.length idx (simOf (load_data rows)))).map
      Prod.fst).Nodup := by
    have hpm := (hperm.map Prod.fst).symm
    have hrange : ((enumRow rows.length idx (simOf (load_data rows))).map Prod.fst) =
        List.range rows.length := enumRow_map_fst _ _ _
    rw [hrange] at hpm
    exact hpm.nodup (List.nodup_range rows.length)
  have hidx_tail : idx ∉ tail.map Prod.fst := by
    have heq : (sortDesc (enumRow rows.length idx (simOf (load_data rows)))).map Prod.fst =
        idx :: tail.map Prod.fst := by
      rw [hs, List.map_cons, hhead]
    rw [heq] at hnodup
    exact (List.nodup_cons.mp hnodup).1
  have htop : topIndices rows.length idx (simOf (load_data rows)) =
      (tail.take 5).map Prod.fst := by
    unfold topIndices
    rw [hs]
    rfl
  have htailpw : tail.Pairwise (fun a b => b.2 < a.2 ∨ (a.2 = b.2 ∧ a.1 < b.1)) :=
    (List.pairwise_cons.mp (hs ▸ hpw)).2
  have htailmem : ∀ z ∈ tail, z.2 = simOf (load_data rows) idx z.1 := by
    intro z hz
    have hzin : z ∈ enumRow rows.length idx (simOf (load_data rows)) := by
      apply hperm.mem_iff.mp
      rw [hs]
      exact List.mem_cons_of_mem hd hz
    exact (mem_enumRow _ _ _ z hzin).2
  refine ⟨?_, ?_, ?_, ?_⟩
  · simp only [recommend, hfind]
  · rw [htop]
    intro hmem
    have hsub : ((tail.take 5).map Prod.fst).Sublist (tail.map Prod.fst) :=
      (List.take_sublist 5 tail).map Prod.fst
    exact hidx_tail (hsub.mem hmem)
  · rw [htop, List.length_map]
    have := List.length_take 5 tail
    omega
  · rw [htop]
    apply List.pairwise_map.mpr
    have htakepw := List.Pairwise.sublist (List.take_sublist 5 tail) htailpw
    apply htakepw.imp_of_mem
    intro a b ha hb hab
    have ha2 := htailmem a ((List.take_sublist 5 tail).mem ha)
    have hb2 := htailmem b ((List.take_sublist 5 tail).mem hb)
    rcases hab with h1 | h1
    · rw [ha2, hb2] at h1
      refine ⟨le_of_lt h1, ?_⟩
      intro he
      rw [he] at h1
      exact absurd h1 (lt_irrefl _)
    · refine ⟨?_, fun _ => h1.2⟩
      have := h1.1
      rw [ha2, hb2] at this
      exact le_of_eq this.symm

theorem catalogZ_row1_dot_zero :
    dotV (vocabOf (load_data catalogZ)).length (docVec (load_data catalogZ) 1)
      (docVec (load_data catalogZ) 1) = 0 := by
  have htoks : (docsTokens (load_data catalogZ)).getD 1 [] = [] := by decide
  have hv : ∀ k, docVec (load_data catalogZ) 1 k = 0 := by
    intro k
    show (tfOf ((vocabOf (load_data catalogZ)).getD k "")
        ((docsTokens (load_data catalogZ)).getD 1 []) : ℝ) *
        idfOf (docsTokens (load_data catalogZ)).length
          (dfreq ((vocabOf (load_data catalogZ)).getD k "")
            (docsTokens (load_data catalogZ))) = 0
    rw [htoks]
    simp [tfOf]
  unfold dotV
  apply Finset.sum_eq_zero
  intro k _
  rw [hv k, zero_mul]

/-- C1 counterexample: in the catalog whose second row is titled "z" with
genres "z", the query row's vector is zero, every similarity in its matrix
row is 0.0, the stable descending sort leaves the enumeration in place, and
dropping the first entry removes row 0 — so `recommend` returns the query
item itself, contradicting the claim that the output never includes it. -/
theorem recommend_includes_query_counterexample :
    ((catalogZ.map Row.title).findIdx? (fun t => pyLower t == pyLower "z") = some 1) ∧
      recommend "z" catalogZ (simOf (load_data catalogZ)) = ["z"] ∧
      1 ∈ topIndices catalogZ.length 1 (simOf (load_data catalogZ)) := by
  have hfind : (catalogZ.map Row.title).findIdx? (fun t => pyLower t == pyLower "z") =
      some 1 := by decide
  have hs10 : simOf (load_data catalogZ) 1 0 = 0 :=
    cosSim_zero_of_self_zero _ _ _ catalogZ_row1_dot_zero
  have hs11 : simOf (load_data catalogZ) 1 1 = 0 :=
    cosSim_zero_of_self_zero _ _ _ catalogZ_row1_dot_zero
  have henum : enumRow catalogZ.length 1 (simOf (load_data catalogZ)) =
      [(0, simOf (load_data catalogZ) 1 0), (1, simOf (load_data catalogZ) 1 1)] := rfl
  have hsort : sortDesc [(0, (0 : ℝ)), (1, 0)] = [(0, 0), (1, 0)] := by
    simp [sortDesc, insertDesc]
  have htop : topIndices catalogZ.length 1 (simOf (load_data catalogZ)) = [1] := by
    unfold topIndices
    rw [henum, hs10, hs11, hsort]
    rfl
  refine ⟨hfind, ?_, ?_⟩
  · simp only [recommend, hfind, htop]
    rfl
  · rw [htop]
    exact List.mem_singleton.mpr rfl

/-- Witness for C1 (amended) at a concrete two-row catalog with disjoint
token sets, querying the first row (so the earlier-row hypothesis is
vacuous). -/
theorem recommend_props_witness :
    build_model (load_data catalogTwo) = .ok (simOf (load_data catalogTwo)) ∧
      ((catalogTwo.map Row.title).findIdx? (fun t => pyLower t == pyLower "ab") = some 0) ∧
      (recommend "ab" catalogTwo (simOf (load_data catalogTwo)) =
        (topIndices catalogTwo.length 0 (simOf (load_data catalogTwo))).map
          (fun j => (catalogTwo.map Row.title).getD j "") ∧
      0 ∉ topIndices catalogTwo.length 0 (simOf (load_data catalogTwo)) ∧
      (topIndices catalogTwo.length 0 (simOf (load_data catalogTwo))).length ≤ 5 ∧
      (topIndices catalogTwo.length 0 (simOf (load_data catalogTwo))).Pairwise
        (fun a b => simOf (load_data catalogTwo) 0 b ≤ simOf (load_data catalogTwo) 0 a ∧
          (simOf (load_data catalogTwo) 0 a = simOf (load_data catalogTwo) 0 b → a < b))) := by
  have hbuild : build_model (load_data catalogTwo) = .ok (simOf (load_data catalogTwo)) := rfl
  have hfind : (catalogTwo.map Row.title).findIdx? (fun t => pyLower t == pyLower "ab") =
      some 0 := by decide
  have hdom : ∀ j, j < 0 → simOf (load_data catalogTwo) 0 j <
      simOf (load_data catalogTwo) 0 0 := fun j hj => absurd hj (Nat.not_lt_zero j)
  exact ⟨hbuild, hfind,
    recommend_props catalogTwo (simOf (load_data catalogTwo)) "ab" 0 hbuild hfind hdom⟩
